import Mathlib

/-!
Verification of the nero-app/libnero media proxy against its specification.

The definitions below are shallow embeddings of the Rust sources:
  * `crates/processor/src/utils.rs`   — request fingerprinting and hop-by-hop stripping
  * `crates/processor/src/mime_detector.rs` — three-tier MIME detection
  * `crates/processor/src/lib.rs`     — registration entry points
  * `crates/processor/src/routes/torrent.rs` — the `/torrent/{h}` route
  * `crates/processor/src/torrent.rs` — the rqbit backend stream handler
  * `crates/libnero/src/file_resolver.rs` — alternative-title generation

Machine integers are `Nat` with explicit `% 2 ^ 64` where the Rust code relies
on 64-bit wraparound.  Network and backend effects are passed in explicitly as
oracle records so that the handlers become pure state-passing functions.
-/

namespace Libnero

/-! ## SipHash-1-3, the algorithm behind `std::collections::hash_map::DefaultHasher`

`get_request_hash` in `utils.rs` feeds the request into a `DefaultHasher`,
which is SipHash-1-3 with both keys zero.  The hasher is modelled one-shot:
the byte sequence written by the `Hash` impls is collected first and then
compressed, which is observationally identical to the streaming Rust hasher. -/

/-- Truncate to 64 bits (`u64` wraparound). -/
def wrap64 (x : Nat) : Nat := x % 2 ^ 64

/-- 64-bit left rotation by `r` (`u64::rotate_left`). -/
def rotl64 (x r : Nat) : Nat := ((x <<< r) % 2 ^ 64) ||| (x >>> (64 - r))

/-- The four 64-bit lanes of the SipHash state. -/
structure SipState where
  v0 : Nat
  v1 : Nat
  v2 : Nat
  v3 : Nat
deriving Repr, DecidableEq

/-- One SipHash round. -/
def sipRound (s : SipState) : SipState :=
  let v0 := wrap64 (s.v0 + s.v1)
  let v1 := rotl64 s.v1 13
  let v1 := v1 ^^^ v0
  let v0 := rotl64 v0 32
  let v2 := wrap64 (s.v2 + s.v3)
  let v3 := rotl64 s.v3 16
  let v3 := v3 ^^^ v2
  let v0 := wrap64 (v0 + v3)
  let v3 := rotl64 v3 21
  let v3 := v3 ^^^ v0
  let v2 := wrap64 (v2 + v1)
  let v1 := rotl64 v1 17
  let v1 := v1 ^^^ v2
  let v2 := rotl64 v2 32
  ⟨v0, v1, v2, v3⟩

/-- Absorb one message word: xor into `v3`, one round (SipHash-1-3 has a
single compression round), xor into `v0`. -/
def sipCompress (s : SipState) (m : Nat) : SipState :=
  let s₁ : SipState := { s with v3 := s.v3 ^^^ m }
  let s₂ := sipRound s₁
  { s₂ with v0 := s₂.v0 ^^^ m }

/-- Little-endian value of a byte list (at most 8 bytes when used as a word). -/
def leVal : List Nat → Nat
  | [] => 0
  | b :: bs => b + 256 * leVal bs

/-- Main compression loop: full 8-byte words, then the final word made of the
trailing bytes plus `(length % 256) <<< 56`. -/
def sipGo (s : SipState) (msgLen : Nat) : List Nat → SipState
  | b0 :: b1 :: b2 :: b3 :: b4 :: b5 :: b6 :: b7 :: rest =>
      sipGo (sipCompress s (leVal [b0, b1, b2, b3, b4, b5, b6, b7])) msgLen rest
  | rest => sipCompress s (leVal rest + (msgLen % 256) * 2 ^ 56)

/-- Initial state for keys `k0 = k1 = 0` (what `DefaultHasher::new` uses). -/
def sipInit : SipState :=
  ⟨0x736f6d6570736575, 0x646f72616e646f6d, 0x6c7967656e657261, 0x7465646279746573⟩

/-- SipHash-1-3 with zero keys of a byte sequence: the value
`DefaultHasher::finish` returns after the given bytes were written. -/
def siphash13 (msg : List Nat) : Nat :=
  let s := sipGo sipInit msg.length msg
  let s₁ : SipState := { s with v2 := s.v2 ^^^ 0xff }
  let s₂ := sipRound (sipRound (sipRound s₁))
  s₂.v0 ^^^ s₂.v1 ^^^ s₂.v2 ^^^ s₂.v3

/-! ## Byte sequences written by the `Hash` impls -/

/-- UTF-8 encoding of one scalar value. -/
def utf8Char (c : Char) : List Nat :=
  let n := c.toNat
  if n < 0x80 then [n]
  else if n < 0x800 then
    [0xC0 ||| (n >>> 6), 0x80 ||| (n &&& 0x3F)]
  else if n < 0x10000 then
    [0xE0 ||| (n >>> 12), 0x80 ||| ((n >>> 6) &&& 0x3F), 0x80 ||| (n &&& 0x3F)]
  else
    [0xF0 ||| (n >>> 18), 0x80 ||| ((n >>> 12) &&& 0x3F),
     0x80 ||| ((n >>> 6) &&& 0x3F), 0x80 ||| (n &&& 0x3F)]

/-- UTF-8 bytes of a string (`str::as_bytes`). -/
def utf8 (s : String) : List Nat := (s.data.map utf8Char).flatten

/-- Eight little-endian bytes of a `u64`/`usize` (`Hasher::write_usize` on a
64-bit platform writes the native-endian, i.e. little-endian, bytes). -/
def u64le (n : Nat) : List Nat :=
  [n % 256, (n >>> 8) % 256, (n >>> 16) % 256, (n >>> 24) % 256,
   (n >>> 32) % 256, (n >>> 40) % 256, (n >>> 48) % 256, (n >>> 56) % 256]

/-- Bytes written by `Hash for str`: the UTF-8 bytes followed by `0xFF`. -/
def strWrites (s : String) : List Nat := utf8 s ++ [0xff]

/-- Bytes written by `Hash for [u8]` (and `Bytes` via deref): the length as a
`usize` prefix, then the bytes themselves. -/
def bytesWrites (b : List Nat) : List Nat := u64le b.length ++ b

/-! ## HTTP request records (`http::Request<Option<Bytes>>` as used in `lib.rs`) -/

/-- An HTTP request record: method, absolute URI, header list, optional body.
Header names are the lowercase wire form `http::HeaderName` guarantees; header
values are byte lists.  `uriPath` carries the path component of `uri`
(`http::Uri::path`), kept alongside because the `http::Uri` parser itself is
outside this embedding. -/
structure HttpRequest where
  method : String
  uri : String
  uriPath : String
  headers : List (String × List Nat)
  body : Option (List Nat)
deriving Repr, DecidableEq

/-- Lexicographic comparison of codepoint lists.  Rust orders `&str` by UTF-8
bytes, and UTF-8 byte order coincides with codepoint order. -/
def charListLe : List Char → List Char → Bool
  | [], _ => true
  | _ :: _, [] => false
  | a :: as, b :: bs =>
    if a.toNat < b.toNat then true
    else if b.toNat < a.toNat then false
    else charListLe as bs

/-- `&str` ordering (`Ord for str`), used as the sort key comparison. -/
def strLeBytes (a b : String) : Bool := charListLe a.data b.data

/-- Comparison of header pairs by name only (`|(k, _)| *k` as the sort key). -/
abbrev headerLe (a b : String × List Nat) : Prop := strLeBytes a.1 b.1 = true

/-- `headers.sort_unstable_by_key(|(k, _)| *k)` from `get_request_hash`.
For slices this small Rust's unstable sort runs insertion sort, which keeps
the relative order of equal keys; `List.insertionSort` has the same behaviour,
and on lists with pairwise-distinct keys every by-key sort agrees anyway. -/
def sortHeadersByName (hs : List (String × List Nat)) : List (String × List Nat) :=
  List.insertionSort headerLe hs

/-- The byte sequence `get_request_hash` writes into the hasher: URI, method,
the header pairs sorted by name, then the body if present.  The `Hash` impls
of `http::Uri` and `http::Method` write a deterministic byte sequence that is
a function of the component; they are modelled as the `str` write of the
textual form (no claim compares requests that differ in URI or method, so
only determinism matters here). -/
def requestHashWrites (r : HttpRequest) : List Nat :=
  strWrites r.uri ++ strWrites r.method ++
    ((sortHeadersByName r.headers).map (fun h => strWrites h.1 ++ bytesWrites h.2)).flatten ++
    (match r.body with
     | some b => bytesWrites b
     | none => [])

/-- `get_request_hash` from `crates/processor/src/utils.rs`. -/
def get_request_hash (r : HttpRequest) : Nat :=
  siphash13 (requestHashWrites r)

/-! ### Order-theoretic facts about the sort key comparison -/

theorem charListLe_total (a : List Char) : ∀ b, charListLe a b = true ∨ charListLe b a = true := by
  induction a with
  | nil => intro b; left; rfl
  | cons x xs ih =>
    intro b
    cases b with
    | nil => right; rfl
    | cons y ys =>
      simp only [charListLe]
      rcases Nat.lt_trichotomy x.toNat y.toNat with h | h | h
      · left; rw [if_pos h]
      · rcases ih ys with h' | h'
        · left; rw [if_neg (by omega), if_neg (by omega)]; exact h'
        · right; rw [if_neg (by omega), if_neg (by omega)]; exact h'
      · right; rw [if_pos h]

theorem charListLe_trans (a : List Char) :
    ∀ b c, charListLe a b = true → charListLe b c = true → charListLe a c = true := by
  induction a with
  | nil => intro b c _ _; rfl
  | cons x xs ih =>
    intro b c h₁ h₂
    cases b with
    | nil => simp [charListLe] at h₁
    | cons y ys =>
      cases c with
      | nil => simp [charListLe] at h₂
      | cons z zs =>
        simp only [charListLe] at h₁ h₂ ⊢
        rcases Nat.lt_trichotomy x.toNat y.toNat with hxy | hxy | hxy <;>
          rcases Nat.lt_trichotomy y.toNat z.toNat with hyz | hyz | hyz
        · rw [if_pos (by omega)]
        · rw [if_pos (by omega)]
        · rw [if_neg (by omega), if_pos (by omega)] at h₂; simp at h₂
        · rw [if_pos (by omega)]
        · rw [if_neg (by omega), if_neg (by omega)] at h₁
          rw [if_neg (by omega), if_neg (by omega)] at h₂
          rw [if_neg (by omega), if_neg (by omega)]
          exact ih ys zs h₁ h₂
        · rw [if_neg (by omega), if_pos (by omega)] at h₂; simp at h₂
        · rw [if_neg (by omega), if_pos (by omega)] at h₁; simp at h₁
        · rw [if_neg (by omega), if_pos (by omega)] at h₁; simp at h₁
        · rw [if_neg (by omega), if_pos (by omega)] at h₁; simp at h₁

theorem charListLe_antisymm (a : List Char) :
    ∀ b, charListLe a b = true → charListLe b a = true → a = b := by
  induction a with
  | nil =>
    intro b h₁ h₂
    cases b with
    | nil => rfl
    | cons y ys => simp [charListLe] at h₂
  | cons x xs ih =>
    intro b h₁ h₂
    cases b with
    | nil => simp [charListLe] at h₁
    | cons y ys =>
      simp only [charListLe] at h₁ h₂
      rcases Nat.lt_trichotomy x.toNat y.toNat with h | h | h
      · rw [if_neg (by omega), if_pos (by omega)] at h₂; simp at h₂
      · rw [if_neg (by omega), if_neg (by omega)] at h₁
        rw [if_neg (by omega), if_neg (by omega)] at h₂
        have hx : x = y := Char.ofNat_toNat x ▸ Char.ofNat_toNat y ▸ congrArg Char.ofNat h
        rw [hx, ih ys h₁ h₂]
      · rw [if_neg (by omega), if_pos (by omega)] at h₁; simp at h₁

theorem strLeBytes_antisymm {a b : String} (h₁ : strLeBytes a b = true)
    (h₂ : strLeBytes b a = true) : a = b :=
  String.ext (charListLe_antisymm a.data b.data h₁ h₂)

instance : IsTotal (String × List Nat) headerLe :=
  ⟨fun a b => charListLe_total a.1.data b.1.data⟩

instance : IsTrans (String × List Nat) headerLe :=
  ⟨fun a b c hab hbc => charListLe_trans a.1.data b.1.data c.1.data hab hbc⟩

/-- Sorting by name alone determines the result whenever the names are
pairwise distinct: any two permutations of one header list sort to the same
canonical list. -/
theorem sortHeadersByName_eq_of_perm (h₁ h₂ : List (String × List Nat)) (hperm : h₁.Perm h₂)
    (hnodup : (h₁.map Prod.fst).Nodup) : sortHeadersByName h₁ = sortHeadersByName h₂ := by
  have hnodup₂ : (h₂.map Prod.fst).Nodup := (hperm.map Prod.fst).nodup hnodup
  have hperm₁ := List.perm_insertionSort headerLe h₁
  have hperm₂ := List.perm_insertionSort headerLe h₂
  have hn₁ : ((List.insertionSort headerLe h₁).map Prod.fst).Nodup :=
    (hperm₁.map Prod.fst).symm.nodup hnodup
  have hn₂ : ((List.insertionSort headerLe h₂).map Prod.fst).Nodup :=
    (hperm₂.map Prod.fst).symm.nodup hnodup₂
  haveI : IsAntisymm (String × List Nat)
      (fun a b => headerLe a b ∧ a.1 ≠ b.1) :=
    ⟨fun a b ha hb => absurd (strLeBytes_antisymm ha.1 hb.1) ha.2⟩
  have hs₁ : List.Pairwise (fun a b : String × List Nat => headerLe a b ∧ a.1 ≠ b.1)
      (List.insertionSort headerLe h₁) :=
    (List.sorted_insertionSort headerLe h₁).and (List.pairwise_map.mp hn₁)
  have hs₂ : List.Pairwise (fun a b : String × List Nat => headerLe a b ∧ a.1 ≠ b.1)
      (List.insertionSort headerLe h₂) :=
    (List.sorted_insertionSort headerLe h₂).and (List.pairwise_map.mp hn₂)
  exact List.eq_of_perm_of_sorted (hperm₁.trans (hperm.trans hperm₂.symm)) hs₁ hs₂

/-- C1 (amended): the fingerprint is invariant under permutations of a header
list whose names are pairwise distinct. -/
theorem get_request_hash_perm_of_distinct_names (r : HttpRequest)
    (hs : List (String × List Nat)) (hperm : hs.Perm r.headers)
    (hnodup : (r.headers.map Prod.fst).Nodup) :
    get_request_hash { r with headers := hs } = get_request_hash r := by
  have : sortHeadersByName hs = sortHeadersByName r.headers :=
    sortHeadersByName_eq_of_perm hs r.headers hperm ((hperm.map Prod.fst).symm.nodup hnodup)
  simp [get_request_hash, requestHashWrites, this]

/-- C1 witness: permuting two distinct-name headers leaves the fingerprint
unchanged, checked on a concrete request. -/
theorem get_request_hash_perm_witness :
    get_request_hash ⟨"GET", "http://e/x", "/x", [("b", [50]), ("a", [49])], none⟩ =
      get_request_hash ⟨"GET", "http://e/x", "/x", [("a", [49]), ("b", [50])], none⟩ :=
  get_request_hash_perm_of_distinct_names
    ⟨"GET", "http://e/x", "/x", [("a", [49]), ("b", [50])], none⟩
    [("b", [50]), ("a", [49])] (by decide) (by decide)

/-- C1 counterexample: the two requests below are header-list permutations of
each other (two values under the one name `a`, swapped), yet their
fingerprints differ — `get_request_hash` sorts by name only, so the relative
order of same-name values reaches the hasher. -/
theorem get_request_hash_same_name_counterexample :
    ([("a", [49]), ("a", [50])] :
        List (String × List Nat)).Perm [("a", [50]), ("a", [49])] ∧
    get_request_hash ⟨"GET", "http://e/x", "/x", [("a", [49]), ("a", [50])], none⟩ ≠
      get_request_hash ⟨"GET", "http://e/x", "/x", [("a", [50]), ("a", [49])], none⟩ := by
  constructor
  · decide
  · decide

/-! ## Hop-by-hop header stripping (`utils.rs`, `HopByHopHeadersExt`)

`http::HeaderMap` is modelled as an ordered association list.  Names carry
the lowercase wire form `http::HeaderName` guarantees; for this component the
values are strings (the stripped `Connection` value goes through
`HeaderValue::to_str`, modelled by storing the string form directly). -/

abbrev HeaderMap := List (String × String)

/-- `HeaderMap::get`: the first value stored under the name. -/
def headerGet (m : HeaderMap) (name : String) : Option String :=
  (m.find? (fun h => h.1 == name)).map Prod.snd

/-- `HeaderMap::remove`: drops the whole entry, i.e. every value stored under
the name. -/
def headerRemove (m : HeaderMap) (name : String) : HeaderMap :=
  m.filter (fun h => h.1 != name)

/-- The `HOP_BY_HOP_HEADERS` constant from `utils.rs`, in source order. -/
def HOP_BY_HOP_HEADERS : List String :=
  ["connection", "keep-alive", "proxy-authenticate", "proxy-authorization",
   "te", "trailers", "transfer-encoding", "upgrade"]

/-- `str::split(',')` — splitting at every separator occurrence, keeping
empty pieces. -/
def splitChar (sep : Char) : List Char → List (List Char)
  | [] => [[]]
  | c :: rest =>
    match splitChar sep rest with
    | [] => [[]]
    | cur :: done => if c = sep then [] :: cur :: done else (c :: cur) :: done

/-- `conn_str.split(',')` on strings. -/
def strSplitComma (s : String) : List String :=
  (splitChar ',' s.data).map String.mk

/-- Whitespace for `str::trim`.  Rust trims the Unicode `White_Space` class;
header token lists only ever meet the ASCII members modelled here. -/
def isWhitespaceC (c : Char) : Bool :=
  decide (c.toNat ∈ [9, 10, 11, 12, 13, 32])

/-- `str::trim`: drop whitespace from both ends. -/
def strTrim (s : String) : String :=
  String.mk (((s.data.dropWhile isWhitespaceC).reverse.dropWhile isWhitespaceC).reverse)

/-- Characters `http::HeaderName::from_bytes` accepts: ASCII alphanumerics and
the token symbols `!#$%&'*+-.^_|~` and backquote (code 96). -/
def isValidHeaderNameChar (c : Char) : Bool :=
  let n := c.toNat
  decide ((48 ≤ n ∧ n ≤ 57) ∨ (97 ≤ n ∧ n ≤ 122) ∨ (65 ≤ n ∧ n ≤ 90) ∨
    n ∈ [33, 35, 36, 37, 38, 39, 42, 43, 45, 46, 94, 95, 96, 124, 126])

/-- `HeaderName::from_bytes`: rejects empty or invalid input, lowercases
ASCII uppercase. -/
def headerNameFromBytes (s : String) : Option String :=
  if s.data.isEmpty then none
  else if s.data.all isValidHeaderNameChar then some (String.mk (s.data.map Char.toLower))
  else none

/-- One step of the token loop inside `remove_hop_by_hop_headers`:
`token.trim()`, skip if empty, parse as header name, remove on success. -/
def removeConnToken (acc : HeaderMap) (tok : String) : HeaderMap :=
  if (strTrim tok).data.isEmpty then acc
  else
    match headerNameFromBytes (strTrim tok) with
    | some name => headerRemove acc name
    | none => acc

/-- `remove_hop_by_hop_headers` from `crates/processor/src/utils.rs`: read the
first `Connection` value, remove every header a comma token of it names, then
remove the eight fixed hop-by-hop headers. -/
def remove_hop_by_hop_headers (m : HeaderMap) : HeaderMap :=
  let m₁ :=
    match headerGet m "connection" with
    | some connStr => (strSplitComma connStr).foldl removeConnToken m
    | none => m
  HOP_BY_HOP_HEADERS.foldl headerRemove m₁

/-! ### Membership characterisations for the removal folds -/

theorem mem_headerRemove {m : HeaderMap} {n : String} {h : String × String} :
    h ∈ headerRemove m n ↔ h ∈ m ∧ h.1 ≠ n := by
  simp [headerRemove, List.mem_filter, bne_iff_ne]

theorem headerGet_eq_none_iff {m : HeaderMap} {n : String} :
    headerGet m n = none ↔ ∀ h ∈ m, h.1 ≠ n := by
  simp [headerGet, List.find?_eq_none, beq_iff_eq]

theorem mem_foldl_headerRemove {names : List String} {m : HeaderMap} {h : String × String} :
    h ∈ names.foldl headerRemove m → h ∈ m ∧ h.1 ∉ names := by
  induction names generalizing m with
  | nil => intro hm; exact ⟨hm, by simp⟩
  | cons n ns ih =>
    intro hm
    have := ih (m := headerRemove m n) hm
    rcases this with ⟨hmem, hnot⟩
    rcases mem_headerRemove.mp hmem with ⟨hmem', hne⟩
    exact ⟨hmem', by simp [hne, hnot]⟩

theorem mem_foldl_removeConnToken {toks : List String} {m : HeaderMap} {h : String × String} :
    h ∈ toks.foldl removeConnToken m →
      h ∈ m ∧ ∀ t ∈ toks, ∀ name, headerNameFromBytes (strTrim t) = some name → h.1 ≠ name := by
  induction toks generalizing m with
  | nil => intro hm; exact ⟨hm, by simp⟩
  | cons t ts ih =>
    intro hm
    rcases ih (m := removeConnToken m t) hm with ⟨hmem, hrest⟩
    have hstep : h ∈ m ∧ ∀ name, headerNameFromBytes (strTrim t) = some name → h.1 ≠ name := by
      unfold removeConnToken at hmem
      split at hmem
      · refine ⟨hmem, fun name hname => ?_⟩
        rename_i hempty
        simp [headerNameFromBytes, hempty] at hname
      · split at hmem
        · rename_i name' hname'
          rcases mem_headerRemove.mp hmem with ⟨hmem', hne⟩
          exact ⟨hmem', fun name hname => by rw [hname] at hname'; cases hname'; exact hne⟩
        · rename_i hnone
          exact ⟨hmem, fun name hname => by rw [hname] at hnone; cases hnone⟩
    refine ⟨hstep.1, fun t' ht' name hname => ?_⟩
    rcases List.mem_cons.mp ht' with rfl | ht'
    · exact hstep.2 name hname
    · exact hrest t' ht' name hname

/-- C7 (amended): after `remove_hop_by_hop_headers`, the map holds no header
named like one of the eight fixed hop-by-hop headers, and none named by a
token of the *first* `Connection` value the map held. -/
theorem remove_hop_by_hop_headers_spec (m : HeaderMap) :
    (∀ n ∈ HOP_BY_HOP_HEADERS, headerGet (remove_hop_by_hop_headers m) n = none) ∧
    (∀ connStr, headerGet m "connection" = some connStr →
      ∀ tok ∈ strSplitComma connStr, ∀ name, headerNameFromBytes (strTrim tok) = some name →
        headerGet (remove_hop_by_hop_headers m) name = none) := by
  constructor
  · intro n hn
    rw [headerGet_eq_none_iff]
    intro h hmem
    exact fun heq => (mem_foldl_headerRemove hmem).2 (heq ▸ hn)
  · intro connStr hconn tok htok name hname
    rw [headerGet_eq_none_iff]
    intro h hmem heq
    have h₁ := (mem_foldl_headerRemove hmem).1
    unfold remove_hop_by_hop_headers at h₁
    rw [hconn] at h₁
    exact (mem_foldl_removeConnToken h₁).2 tok htok name hname heq

/-- C7 witness: the amended theorem applied to a concrete map. -/
theorem remove_hop_by_hop_headers_spec_witness :
    headerGet (remove_hop_by_hop_headers
      [("connection", "x-a"), ("te", "chunked"), ("x-a", "1"), ("host", "h")]) "te" = none ∧
    headerGet (remove_hop_by_hop_headers
      [("connection", "x-a"), ("te", "chunked"), ("x-a", "1"), ("host", "h")]) "x-a" = none :=
  ⟨(remove_hop_by_hop_headers_spec
      [("connection", "x-a"), ("te", "chunked"), ("x-a", "1"), ("host", "h")]).1
      "te" (by decide),
   (remove_hop_by_hop_headers_spec
      [("connection", "x-a"), ("te", "chunked"), ("x-a", "1"), ("host", "h")]).2
      "x-a" (by decide) "x-a" (by decide) "x-a" (by decide)⟩

/-- C7 counterexample: with two `Connection` values only the first one's
tokens are stripped — `x-b`, named by the second `Connection` value, survives,
so the claim quantified over *any* originally-held `Connection` value fails. -/
theorem remove_hop_by_hop_headers_counterexample :
    remove_hop_by_hop_headers
        [("connection", "x-a"), ("connection", "x-b"), ("x-a", "1"), ("x-b", "2")] =
      [("x-b", "2")] := by decide

/-! ## Server state and the `/torrent/{h}` route

Types from `crates/processor/src/lib.rs`, `torrent.rs` and `error.rs`. -/

/-- `TorrentFile` from `torrent.rs`. -/
structure TorrentFile where
  index : Nat
  name : String
  path : String
deriving Repr, DecidableEq

/-- `Torrent` from `torrent.rs`. -/
structure Torrent where
  id : String
  name : Option String
  files : List TorrentFile
deriving Repr, DecidableEq

/-- `TorrentSource` from `lib.rs`. -/
inductive TorrentSource where
  | http (request : HttpRequest)
  | magnetUri (uri : String)
deriving Repr, DecidableEq

/-- The private `Request` enum from `lib.rs`: what the video cache stores. -/
inductive Request where
  | http (request : HttpRequest)
  | torrent (source : TorrentSource) (file_indices : List Nat)
deriving Repr, DecidableEq

/-- `CurrentVideo` from `lib.rs`. -/
inductive CurrentVideo where
  | http (request : HttpRequest)
  | torrent (torrent_id : String)
deriving Repr, DecidableEq

/-- `Error` from `error.rs`. -/
inductive Error where
  | NotFound
  | Reqwest (msg : String)
  | RemoteServer (status : Nat)
  | TorrentSupportDisabled
  | TorrentBackend (msg : String)
  | InvalidRequestType
deriving Repr, DecidableEq

/-- The HTTP status `IntoResponse for Error` maps each error to. -/
def Error.statusCode : Error → Nat
  | .NotFound => 404
  | .Reqwest _ => 502
  | .RemoteServer _ => 502
  | .TorrentSupportDisabled => 400
  | .TorrentBackend _ => 500
  | .InvalidRequestType => 400

/-- Modelled from the spec: the `Cache` of `crates/processor/src/cache.rs` is
not under `src/`; §4.2 specifies a keyed store with `insert(k,v)`,
non-consuming `get` and consuming `remove`.  TTL and capacity eviction are
time- and pressure-dependent and are not exercised by any claim, so the model
is a plain keyed association list. -/
abbrev Cache (K V : Type) := List (K × V)

/-- `Cache::get` (non-consuming). -/
def cacheGet [BEq K] (c : Cache K V) (k : K) : Option V :=
  (c.find? (fun e => e.1 == k)).map Prod.snd

/-- `Cache::remove` (consuming): the removed value, if any, and the remaining
store. -/
def cacheRemove [BEq K] (c : Cache K V) (k : K) : Option V × Cache K V :=
  (cacheGet c k, c.filter (fun e => e.1 != k))

/-- `Cache::insert`: keyed store, the new value replaces any previous one. -/
def cacheInsert [BEq K] (c : Cache K V) (k : K) (v : V) : Cache K V :=
  (k, v) :: c.filter (fun e => e.1 != k)

/-- The mutable fields of `ServerState` from `lib.rs`.  The torrent backend
slot is reduced to its occupancy; the backend behaviour itself is an oracle
(`TorrentBackendModel`) passed to the handlers. -/
structure ServerState where
  addr : String
  hasTorrentBackend : Bool
  image_requests : Cache Nat HttpRequest
  video_requests : Cache Nat Request
  current_video : Option CurrentVideo
deriving Repr, DecidableEq

/-- Oracle for the abstract `TorrentBackend` trait: the result `add_torrent`
would produce for a source and file-index selection.  `cancel_torrent`'s
result is dropped by the caller (`.ok()`), so it needs no model. -/
structure TorrentBackendModel where
  add_torrent : TorrentSource → List Nat → Except String Torrent

/-- Trace of calls the handler makes into the torrent backend, in order. -/
inductive BackendCall where
  | cancel_torrent (id : String)
  | add_torrent (source : TorrentSource) (file_indices : List Nat)
deriving Repr, DecidableEq

/-- An axum response as far as the claims observe it. -/
structure Response where
  status : Nat
  headers : List (String × String)
  body : String
deriving Repr, DecidableEq

/-- The `#EXTINF` stream URL for one torrent file, as formatted in
`routes/torrent.rs` (`Scheme::HTTP` displays as `http`). -/
def streamUrl (addr id : String) (index : Nat) : String :=
  "http" ++ "://" ++ addr ++ "/torrent/" ++ id ++ "/stream/" ++ toString index

/-- `handle_torrent_request` from `crates/processor/src/routes/torrent.rs`,
as a function of the backend oracle, the server state and the path hash.
Returns the new state, the backend calls made in order, and the result. -/
def handle_torrent_request (backend : TorrentBackendModel) (st : ServerState)
    (request_hash : Nat) : ServerState × List BackendCall × Except Error Response :=
  match cacheRemove st.video_requests request_hash with
  | (none, vr) => ({ st with video_requests := vr }, [], .error .NotFound)
  | (some stored, vr) =>
    let st := { st with video_requests := vr }
    if !st.hasTorrentBackend then (st, [], .error .TorrentSupportDisabled)
    else
      match stored with
      | .http _ => (st, [], .error .InvalidRequestType)
      | .torrent source file_indices =>
        let cancels :=
          match st.current_video with
          | some (.torrent torrent_id) => [BackendCall.cancel_torrent torrent_id]
          | _ => []
        let st := { st with current_video := none }
        match backend.add_torrent source file_indices with
        | .error e =>
          (st, cancels ++ [.add_torrent source file_indices], .error (.TorrentBackend e))
        | .ok added =>
          let st := { st with current_video := some (.torrent added.id) }
          let m3u := added.files.foldl
            (fun acc file =>
              acc ++ ("#EXTINF:-1," ++ file.name ++ "\n" ++
                streamUrl st.addr added.id file.index ++ "\n"))
            "#EXTM3U\n"
          (st, cancels ++ [.add_torrent source file_indices],
           .ok { status := 200,
                 headers := [("content-type", "application/x-mpegurl")],
                 body := m3u })

/-- After removing key `k`, looking `k` up in the remaining store fails. -/
theorem cacheGet_cacheRemove_self (c : Cache Nat V) (k : Nat) :
    cacheGet (cacheRemove c k).2 k = none := by
  simp only [cacheRemove, cacheGet, Option.map_eq_none', List.find?_eq_none]
  intro e hmem
  have h₂ := (List.mem_filter.mp hmem).2
  simp only [bne_iff_ne] at h₂
  simp [h₂]

/-- Whatever happens, the handler leaves the video cache without the entry:
the removal is its very first step and nothing reinserts. -/
theorem handle_torrent_request_video_requests (backend : TorrentBackendModel)
    (st : ServerState) (h : Nat) :
    (handle_torrent_request backend st h).1.video_requests =
      (cacheRemove st.video_requests h).2 := by
  simp only [handle_torrent_request]
  split
  · rename_i vr heq
    simp [heq]
  · rename_i stored vr heq
    split
    · simp [heq]
    · split
      · simp [heq]
      · split <;> simp [heq]

/-- An absent key makes the handler fail with `NotFound` before anything else. -/
theorem handle_torrent_request_not_found (backend : TorrentBackendModel)
    (st : ServerState) (h : Nat) (hnone : cacheGet st.video_requests h = none) :
    (handle_torrent_request backend st h).2.2 = .error .NotFound := by
  simp [handle_torrent_request, cacheRemove, hnone]

/-- C2: whenever `/torrent/{h}` succeeds, the new state records exactly the
added torrent as current, the prior torrent session (if any) got a
`cancel_torrent` call, and that cancel was issued before the `add_torrent`. -/
theorem handle_torrent_request_current_unique
    (backend : TorrentBackendModel) (st : ServerState) (h : Nat)
    (st' : ServerState) (calls : List BackendCall) (resp : Response)
    (hrun : handle_torrent_request backend st h = (st', calls, .ok resp)) :
    (∃ tid, st'.current_video = some (.torrent tid)) ∧
    (∃ source file_indices,
      calls = (match st.current_video with
               | some (.torrent tid₀) => [BackendCall.cancel_torrent tid₀]
               | _ => []) ++ [.add_torrent source file_indices]) ∧
    (∀ tid₀, st.current_video = some (.torrent tid₀) →
      BackendCall.cancel_torrent tid₀ ∈ calls) := by
  simp only [handle_torrent_request] at hrun
  split at hrun
  · simp at hrun
  · split at hrun
    · simp at hrun
    · split at hrun
      · simp at hrun
      · rename_i source file_indices heq₂
        split at hrun
        · simp at hrun
        · rename_i added hadd
          simp only [Prod.mk.injEq, Except.ok.injEq] at hrun
          obtain ⟨hst, hcalls, -⟩ := hrun
          subst hst hcalls
          refine ⟨⟨added.id, by simp⟩, ⟨source, file_indices, by simp⟩, ?_⟩
          intro tid₀ hcur
          simp [hcur]

/-- C2 witness: a concrete successful run cancels the prior torrent session
before adding, and leaves exactly the new session current. -/
theorem handle_torrent_request_current_unique_witness :
    (∃ tid, ({ addr := "127.0.0.1:1", hasTorrentBackend := true, image_requests := [],
               video_requests := [], current_video := some (.torrent "9") } :
                ServerState).current_video = some (.torrent tid)) ∧
    (∃ source file_indices,
      ([BackendCall.cancel_torrent "9", BackendCall.add_torrent (.magnetUri "m") [0]] :
          List BackendCall) =
        (match (some (CurrentVideo.torrent "9") : Option CurrentVideo) with
         | some (.torrent tid₀) => [BackendCall.cancel_torrent tid₀]
         | _ => []) ++ [.add_torrent source file_indices]) ∧
    (∀ tid₀, (some (CurrentVideo.torrent "9") : Option CurrentVideo) =
        some (.torrent tid₀) →
      BackendCall.cancel_torrent tid₀ ∈
        [BackendCall.cancel_torrent "9", BackendCall.add_torrent (.magnetUri "m") [0]]) :=
  handle_torrent_request_current_unique
    ⟨fun _ _ => .ok ⟨"9", none, [⟨0, "f.mkv", "f.mkv"⟩]⟩⟩
    { addr := "127.0.0.1:1", hasTorrentBackend := true, image_requests := [],
      video_requests := [(5, .torrent (.magnetUri "m") [0])],
      current_video := some (.torrent "9") }
    5
    { addr := "127.0.0.1:1", hasTorrentBackend := true, image_requests := [],
      video_requests := [], current_video := some (.torrent "9") }
    [BackendCall.cancel_torrent "9", BackendCall.add_torrent (.magnetUri "m") [0]]
    { status := 200, headers := [("content-type", "application/x-mpegurl")],
      body := "#EXTM3U\n#EXTINF:-1,f.mkv\n" ++
        streamUrl "127.0.0.1:1" "9" 0 ++ "\n" }
    (by rfl)

/-- C10: `/torrent/{h}` removes the video-cache entry before any other check.
On each failing path — no backend (400 `TorrentSupportDisabled`), a
non-torrent entry (400 `InvalidRequestType`), a failing `add_torrent`
(500) — the entry is gone, and repeating the identical request yields
`NotFound` (404). -/
theorem handle_torrent_request_error_paths
    (backend : TorrentBackendModel) (st : ServerState) (h : Nat) (stored : Request)
    (hfound : cacheGet st.video_requests h = some stored) :
    cacheGet (handle_torrent_request backend st h).1.video_requests h = none ∧
    (st.hasTorrentBackend = false →
      (handle_torrent_request backend st h).2.2 = .error .TorrentSupportDisabled ∧
      Error.TorrentSupportDisabled.statusCode = 400) ∧
    (∀ r, stored = .http r → st.hasTorrentBackend = true →
      (handle_torrent_request backend st h).2.2 = .error .InvalidRequestType ∧
      Error.InvalidRequestType.statusCode = 400) ∧
    (∀ source file_indices e, stored = .torrent source file_indices →
      st.hasTorrentBackend = true → backend.add_torrent source file_indices = .error e →
      (handle_torrent_request backend st h).2.2 = .error (.TorrentBackend e) ∧
      (Error.TorrentBackend e).statusCode = 500) ∧
    (∀ st' calls err, handle_torrent_request backend st h = (st', calls, .error err) →
      (handle_torrent_request backend st' h).2.2 = .error .NotFound) := by
  have hrm : cacheRemove st.video_requests h = (some stored, (cacheRemove st.video_requests h).2) := by
    simp [cacheRemove, hfound]
  refine ⟨?_, ?_, ?_, ?_, ?_⟩
  · rw [handle_torrent_request_video_requests]
    exact cacheGet_cacheRemove_self _ _
  · intro hbe
    refine ⟨?_, rfl⟩
    rw [handle_torrent_request]
    rw [hrm]
    simp [hbe]
  · intro r hr hbe
    refine ⟨?_, rfl⟩
    rw [handle_torrent_request]
    rw [hrm]
    simp [hbe, hr]
  · intro source file_indices e hs hbe hadd
    refine ⟨?_, rfl⟩
    rw [handle_torrent_request]
    rw [hrm]
    simp [hbe, hs, hadd]
  · intro st' calls err hrun
    have hnone : cacheGet st'.video_requests h = none := by
      have hvr := handle_torrent_request_video_requests backend st h
      rw [hrun] at hvr
      simp only at hvr
      rw [hvr]
      exact cacheGet_cacheRemove_self _ _
    exact handle_torrent_request_not_found backend st' h hnone

/-- C10 witness: with a backend-less state holding an entry under hash 5, the
first request fails 400 `TorrentSupportDisabled` and the repeated request
fails `NotFound`. -/
theorem handle_torrent_request_error_paths_witness :
    cacheGet (handle_torrent_request ⟨fun _ _ => .error "down"⟩
      { addr := "a", hasTorrentBackend := false, image_requests := [],
        video_requests := [(5, .torrent (.magnetUri "m") [0])], current_video := none }
      5).1.video_requests 5 = none ∧
    (handle_torrent_request ⟨fun _ _ => .error "down"⟩
      { addr := "a", hasTorrentBackend := false, image_requests := [],
        video_requests := [(5, .torrent (.magnetUri "m") [0])], current_video := none }
      5).2.2 = .error .TorrentSupportDisabled :=
  ⟨(handle_torrent_request_error_paths ⟨fun _ _ => .error "down"⟩
      { addr := "a", hasTorrentBackend := false, image_requests := [],
        video_requests := [(5, .torrent (.magnetUri "m") [0])], current_video := none }
      5 (.torrent (.magnetUri "m") [0]) (by rfl)).1,
   ((handle_torrent_request_error_paths ⟨fun _ _ => .error "down"⟩
      { addr := "a", hasTorrentBackend := false, image_requests := [],
        video_requests := [(5, .torrent (.magnetUri "m") [0])], current_video := none }
      5 (.torrent (.magnetUri "m") [0]) (by rfl)).2.1 rfl).1⟩

/-- Shifting the accumulator out of a string-concatenation fold. -/
theorem str_foldl_append (l : List String) : ∀ a : String,
    l.foldl (fun r s => r ++ s) a = a ++ l.foldl (fun r s => r ++ s) "" := by
  induction l with
  | nil => intro a; simp [String.append_empty]
  | cons x xs ih =>
    intro a
    simp only [List.foldl_cons]
    rw [ih (a ++ x), ih ("" ++ x)]
    simp [String.empty_append, String.append_assoc]

/-- Folding string concatenation over a list appends the join of the mapped
pieces. -/
theorem foldl_str_append_eq_join (g : α → String) (l : List α) (init : String) :
    l.foldl (fun acc x => acc ++ g x) init = init ++ String.join (l.map g) := by
  induction l generalizing init with
  | nil => simp [String.join, String.append_empty]
  | cons x xs ih =>
    simp only [List.foldl_cons, List.map_cons, String.join]
    rw [ih]
    simp only [List.foldl_cons, String.join]
    rw [str_foldl_append (List.map g xs) ("" ++ g x)]
    simp [String.empty_append, String.append_assoc]

/-- C8: a successful `/torrent/{h}` responds 200 with Content-Type
`application/x-mpegurl` and body `#EXTM3U\n` followed, per included file in
listing order, by `#EXTINF:-1,{name}\n` and the stream URL line. -/
theorem handle_torrent_request_m3u
    (backend : TorrentBackendModel) (st : ServerState) (h : Nat)
    (source : TorrentSource) (file_indices : List Nat) (added : Torrent)
    (hfound : cacheGet st.video_requests h = some (.torrent source file_indices))
    (hbe : st.hasTorrentBackend = true)
    (hadd : backend.add_torrent source file_indices = .ok added) :
    (handle_torrent_request backend st h).2.2 =
      .ok { status := 200,
            headers := [("content-type", "application/x-mpegurl")],
            body := "#EXTM3U\n" ++ String.join (added.files.map
              (fun file => "#EXTINF:-1," ++ file.name ++ "\n" ++
                streamUrl st.addr added.id file.index ++ "\n")) } := by
  have hrm : cacheRemove st.video_requests h =
      (some (.torrent source file_indices), (cacheRemove st.video_requests h).2) := by
    simp [cacheRemove, hfound]
  rw [handle_torrent_request]
  rw [hrm]
  simp [hbe, hadd, foldl_str_append_eq_join]

/-- C8 witness: concrete playlist for a two-file torrent. -/
theorem handle_torrent_request_m3u_witness :
    (handle_torrent_request
      ⟨fun _ _ => .ok ⟨"7", none, [⟨0, "e1.mkv", "d/e1.mkv"⟩, ⟨2, "e2.mkv", "d/e2.mkv"⟩]⟩⟩
      { addr := "127.0.0.1:1", hasTorrentBackend := true, image_requests := [],
        video_requests := [(5, .torrent (.magnetUri "m") [0, 2])], current_video := none }
      5).2.2 =
      .ok { status := 200,
            headers := [("content-type", "application/x-mpegurl")],
            body := "#EXTM3U\n" ++ String.join
              ([⟨0, "e1.mkv", "d/e1.mkv"⟩, ⟨2, "e2.mkv", "d/e2.mkv"⟩].map
                (fun file : TorrentFile => "#EXTINF:-1," ++ file.name ++ "\n" ++
                  streamUrl "127.0.0.1:1" "7" file.index ++ "\n")) } :=
  handle_torrent_request_m3u
    ⟨fun _ _ => .ok ⟨"7", none, [⟨0, "e1.mkv", "d/e1.mkv"⟩, ⟨2, "e2.mkv", "d/e2.mkv"⟩]⟩⟩
    { addr := "127.0.0.1:1", hasTorrentBackend := true, image_requests := [],
      video_requests := [(5, .torrent (.magnetUri "m") [0, 2])], current_video := none }
    5 (.magnetUri "m") [0, 2] ⟨"7", none, [⟨0, "e1.mkv", "d/e1.mkv"⟩, ⟨2, "e2.mkv", "d/e2.mkv"⟩]⟩
    (by rfl) rfl rfl

/-! ## MIME detection (`crates/processor/src/mime_detector.rs`)

Network effects (the HEAD probe and the content replay) are supplied by an
oracle record; everything else follows the source. -/

/-- `mime::Mime` reduced to its essence parts: `type_()` and `subtype()`.
The mime crate's `subtype()` never contains `/` — it is the segment after the
slash. -/
structure Mime where
  type_ : String
  subtype : String
deriving Repr, DecidableEq

/-- ASCII lowercasing of a string (`eq_ignore_ascii_case`-style comparisons in
mime/mime_guess are modelled by lowercasing up front). -/
def strToLower (s : String) : String := String.mk (s.data.map Char.toLower)

/-- `mime::Mime::from_str`, reduced to the essence: split at the first `/`,
subtype ends at `;` (parameters dropped), both parts nonempty, lowercased. -/
def mimeFromStr (s : String) : Option Mime :=
  match splitChar '/' s.data with
  | [t, r] =>
    let sub := (r.takeWhile (fun c => c ≠ ';'))
    if t.isEmpty || sub.isEmpty then none
    else some ⟨strToLower (String.mk t), strToLower (String.mk sub)⟩
  | _ => none

/-- A representative fragment of the `mime_guess` extension table (the full
table is a large generated constant; only entries the claims touch plus a few
neighbours are listed). -/
def extensionMimeTable : List (String × Mime) :=
  [("mp4", ⟨"video", "mp4"⟩), ("mkv", ⟨"video", "x-matroska"⟩),
   ("webm", ⟨"video", "webm"⟩), ("avi", ⟨"video", "x-msvideo"⟩),
   ("jpg", ⟨"image", "jpeg"⟩), ("jpeg", ⟨"image", "jpeg"⟩),
   ("png", ⟨"image", "png"⟩), ("torrent", ⟨"application", "x-bittorrent"⟩),
   ("m3u8", ⟨"application", "vnd.apple.mpegurl"⟩), ("txt", ⟨"text", "plain"⟩)]

/-- `mime_guess::from_ext(extension).first()` — ASCII-case-insensitive. -/
def mime_guess_from_ext (ext : String) : Option Mime :=
  (extensionMimeTable.find? (fun e => e.1 == strToLower ext)).map Prod.snd

/-- A representative fragment of the `infer` crate's magic-byte table. -/
def inferGet (bytes : List Nat) : Option Mime :=
  if bytes.take 4 = [0x1A, 0x45, 0xDF, 0xA3] then some ⟨"video", "x-matroska"⟩
  else if (bytes.drop 4).take 4 = [0x66, 0x74, 0x79, 0x70] then some ⟨"video", "mp4"⟩
  else if bytes.take 3 = [0xFF, 0xD8, 0xFF] then some ⟨"image", "jpeg"⟩
  else if bytes.take 8 = [0x89, 0x50, 0x4E, 0x47, 0x0D, 0x0A, 0x1A, 0x0A] then
    some ⟨"image", "png"⟩
  else if bytes.take 11 = [0x64, 0x38, 0x3A, 0x61, 0x6E, 0x6E, 0x6F, 0x75, 0x6E, 0x63, 0x65] then
    some ⟨"application", "x-bittorrent"⟩
  else none

/-- `StatusCode::is_success`: 2xx. -/
def isSuccessStatus (s : Nat) : Bool := decide (200 ≤ s ∧ s ≤ 299)

/-- What `detect_from_head` observes of the HEAD response: the status and the
`Content-Type` value after `to_str().ok()` (absent or non-visible-ASCII values
collapse to `none`, exactly as the chained `and_then`s do). -/
structure HeadResponse where
  status : Nat
  contentType : Option String
deriving Repr, DecidableEq

/-- What `detect_from_content` observes of the replayed response: the status
and the first body chunk, if any. -/
structure ContentResponse where
  status : Nat
  firstChunk : Option (List Nat)
deriving Repr, DecidableEq

/-- The request `detect_from_content` rebuilds: original method, URI, headers
and body. -/
structure ReplayRequest where
  method : String
  uri : String
  headers : List (String × List Nat)
  body : Option (List Nat)
deriving Repr, DecidableEq

/-- Oracle for the two outbound calls the detector makes.  An `Except.error`
is a transport failure (`reqwest::Error`), which `?` propagates. -/
structure HttpOracle where
  head : String → Except String HeadResponse
  content : ReplayRequest → Except String ContentResponse

/-- The replay `detect_from_content` builds from the stored request. -/
def buildReplay (request : HttpRequest) : ReplayRequest :=
  ⟨request.method, request.uri, request.headers, request.body⟩

/-- `detect_from_path`: last `.`-segment of the URI path, rejected when it is
the whole path or still contains `/`, then the extension table. -/
def detect_from_path (request : HttpRequest) : Option Mime :=
  let path := request.uriPath
  let extension := String.mk ((splitChar '.' path.data).getLastD path.data)
  if extension == path || extension.data.contains '/' then none
  else mime_guess_from_ext extension

/-- `detect_from_head`: HEAD the URI; on non-2xx yield nothing; otherwise
parse the `Content-Type` value if present. -/
def detect_from_head (o : HttpOracle) (request : HttpRequest) :
    Except String (Option Mime) :=
  match o.head request.uri with
  | .error e => .error e
  | .ok res =>
    if !isSuccessStatus res.status then .ok none
    else
      match res.contentType with
      | some ct => .ok (mimeFromStr ct)
      | none => .ok none

/-- `detect_from_content`: replay method/headers/body; on non-2xx or an empty
body yield nothing; otherwise identify the first chunk by magic bytes. -/
def detect_from_content (o : HttpOracle) (request : HttpRequest) :
    Except String (Option Mime) :=
  match o.content (buildReplay request) with
  | .error e => .error e
  | .ok res =>
    if !isSuccessStatus res.status then .ok none
    else
      match res.firstChunk with
      | none => .ok none
      | some chunk => .ok (inferGet chunk)

/-- `mime_type` from `mime_detector.rs`: the three tiers in order, first
`Some` wins, transport errors propagate, `Ok(None)` when all three miss. -/
def mime_type (o : HttpOracle) (request : HttpRequest) :
    Except String (Option Mime) :=
  match detect_from_path request with
  | some m => .ok (some m)
  | none =>
    match detect_from_head o request with
    | .error e => .error e
    | .ok (some m) => .ok (some m)
    | .ok none =>
      match detect_from_content o request with
      | .error e => .error e
      | .ok (some m) => .ok (some m)
      | .ok none => .ok none

/-! ## Registration entry points (`crates/processor/src/lib.rs`)

`url::Url::parse` is modelled as the identity on the textual URL: none of the
claims exercises URL normalisation. -/

/-- `Processor::register_image_request`. -/
def register_image_request (o : HttpOracle) (st : ServerState) (request : HttpRequest) :
    ServerState × Except String String :=
  if request.headers.isEmpty then (st, .ok request.uri)
  else
    match mime_type o request with
    | .error e => (st, .error e)
    | .ok none => (st, .error "Could not detect mime type")
    | .ok (some m) =>
      if m.subtype == "application/x-bittorrent" then
        (st, .error "Torrents are not supported for images")
      else
        let request_hash := get_request_hash request
        ({ st with image_requests := cacheInsert st.image_requests request_hash request },
         .ok ("http" ++ "://" ++ st.addr ++ "/image/" ++ toString request_hash))

/-- `Processor::register_video_request`.  Note the torrent guard compares
`subtype()` against the full string `application/x-bittorrent`, exactly as the
source does. -/
def register_video_request (o : HttpOracle) (st : ServerState) (request : HttpRequest) :
    ServerState × Except String String :=
  if request.headers.isEmpty then (st, .ok request.uri)
  else
    match mime_type o request with
    | .error e => (st, .error e)
    | .ok none => (st, .error "Could not detect mime type")
    | .ok (some m) =>
      let request_hash := get_request_hash request
      if m.type_ == "video" then
        ({ st with video_requests := cacheInsert st.video_requests request_hash (.http request) },
         .ok ("http" ++ "://" ++ st.addr ++ "/video/" ++ toString request_hash))
      else if m.type_ == "application" && m.subtype == "application/x-bittorrent" then
        (st, .error "Torrent file. Use register_torrent() instead.")
      else
        (st, .error "Unsupported media type")

/-- C6: the detector tries path extension, HEAD probe, content sniff in that
order, the first `Some` wins; a non-2xx HEAD yields nothing; the path tier
produces nothing unless the last `.`-segment is a pure extension, in which
case it is exactly the extension-table lookup; all three missing gives
`Ok(None)`. -/
theorem mime_type_tiers (o : HttpOracle) (r : HttpRequest) :
    (∀ m, detect_from_path r = some m → mime_type o r = .ok (some m)) ∧
    (detect_from_path r = none → ∀ m, detect_from_head o r = .ok (some m) →
      mime_type o r = .ok (some m)) ∧
    (detect_from_path r = none → detect_from_head o r = .ok none →
      ∀ m, detect_from_content o r = .ok (some m) → mime_type o r = .ok (some m)) ∧
    (detect_from_path r = none → detect_from_head o r = .ok none →
      detect_from_content o r = .ok none → mime_type o r = .ok none) ∧
    (∀ res, o.head r.uri = .ok res → isSuccessStatus res.status = false →
      detect_from_head o r = .ok none) ∧
    ((String.mk ((splitChar '.' r.uriPath.data).getLastD r.uriPath.data) == r.uriPath ||
        (String.mk ((splitChar '.' r.uriPath.data).getLastD r.uriPath.data)).data.contains
          '/') = true →
      detect_from_path r = none) ∧
    ((String.mk ((splitChar '.' r.uriPath.data).getLastD r.uriPath.data) == r.uriPath ||
        (String.mk ((splitChar '.' r.uriPath.data).getLastD r.uriPath.data)).data.contains
          '/') = false →
      detect_from_path r =
        mime_guess_from_ext (String.mk ((splitChar '.' r.uriPath.data).getLastD r.uriPath.data))) := by
  refine ⟨?_, ?_, ?_, ?_, ?_, ?_, ?_⟩
  · intro m hm; simp [mime_type, hm]
  · intro hp m hh; simp [mime_type, hp, hh]
  · intro hp hh m hc; simp [mime_type, hp, hh, hc]
  · intro hp hh hc; simp [mime_type, hp, hh, hc]
  · intro res hres hfail; simp [detect_from_head, hres, hfail]
  · intro hcond; simp only [detect_from_path]; rw [if_pos hcond]
  · intro hcond; simp only [detect_from_path]; rw [if_neg (by rw [hcond]; simp)]

/-- C6 witness: no usable extension, failing HEAD, failing replay — the
detector reports `Ok(None)`. -/
theorem mime_type_tiers_witness :
    mime_type ⟨fun _ => .ok ⟨404, none⟩, fun _ => .ok ⟨500, none⟩⟩
      ⟨"GET", "http://ex/api", "/api", [("x", [1])], none⟩ = .ok none :=
  (mime_type_tiers ⟨fun _ => .ok ⟨404, none⟩, fun _ => .ok ⟨500, none⟩⟩
      ⟨"GET", "http://ex/api", "/api", [("x", [1])], none⟩).2.2.2.1
    (by rfl) (by rfl) (by rfl)

/-- C9: on a header-less request both registration entry points return the
request URI unchanged and leave both caches (indeed the whole state)
untouched. -/
theorem register_no_header_shortcut (o : HttpOracle) (st : ServerState)
    (r : HttpRequest) (hempty : r.headers = []) :
    register_image_request o st r = (st, .ok r.uri) ∧
    register_video_request o st r = (st, .ok r.uri) := by
  constructor <;> simp [register_image_request, register_video_request, hempty]

/-- C9 witness: the shortcut on a concrete header-less request. -/
theorem register_no_header_shortcut_witness :
    register_image_request ⟨fun _ => .error "e", fun _ => .error "e"⟩
        ⟨"a", false, [], [], none⟩ ⟨"GET", "http://ex/p.jpg", "/p.jpg", [], none⟩ =
      (⟨"a", false, [], [], none⟩, .ok "http://ex/p.jpg") ∧
    register_video_request ⟨fun _ => .error "e", fun _ => .error "e"⟩
        ⟨"a", false, [], [], none⟩ ⟨"GET", "http://ex/p.jpg", "/p.jpg", [], none⟩ =
      (⟨"a", false, [], [], none⟩, .ok "http://ex/p.jpg") :=
  register_no_header_shortcut ⟨fun _ => .error "e", fun _ => .error "e"⟩
    ⟨"a", false, [], [], none⟩ ⟨"GET", "http://ex/p.jpg", "/p.jpg", [], none⟩ rfl

/-- C3: a request whose detected MIME type is `application/x-bittorrent`
(here via the `.torrent` path extension) is rejected by
`register_video_request` with `"Unsupported media type"`, not with the
`"Use register_torrent() instead."` error the spec promises: the guard
compares `subtype()` (`x-bittorrent`) against the full string
`application/x-bittorrent`, which no subtype can equal, so the torrent arm is
dead code. -/
theorem register_video_request_bittorrent_detected :
    mime_type ⟨fun _ => .error "net", fun _ => .error "net"⟩
        ⟨"GET", "http://ex/file.torrent", "/file.torrent", [("x-h", [1])], none⟩ =
      .ok (some ⟨"application", "x-bittorrent"⟩) ∧
    register_video_request ⟨fun _ => .error "net", fun _ => .error "net"⟩
        ⟨"a", false, [], [], none⟩
        ⟨"GET", "http://ex/file.torrent", "/file.torrent", [("x-h", [1])], none⟩ =
      (⟨"a", false, [], [], none⟩, .error "Unsupported media type") := by
  exact ⟨rfl, rfl⟩

/-! ## Integer parsing (`str::parse::<u64>` / `::<u32>`) -/

/-- ASCII decimal digit. -/
def decDigit (c : Char) : Bool := decide (48 ≤ c.toNat ∧ c.toNat ≤ 57)

/-- Value of one digit character. -/
def digitVal (c : Char) : Nat := c.toNat - 48

/-- Value of a digit string, most significant first. -/
def decValue (l : List Char) : Nat := l.foldl (fun a c => a * 10 + digitVal c) 0

/-- `FromStr` for unsigned integers accepts one optional leading `+`. -/
def stripPlus : List Char → List Char
  | [] => []
  | c :: r => if c = '+' then r else c :: r

/-- `str::parse` for an unsigned integer type with `bound = 2 ^ bits`:
nonempty digits after an optional `+`, value in range.  Rust's checked
accumulation overflows iff the final value is out of range (the running
value grows monotonically), so the final bound check is equivalent. -/
def parseUIntC (bound : Nat) (l : List Char) : Option Nat :=
  let d := stripPlus l
  if d.isEmpty then none
  else if d.all decDigit then
    if decValue d < bound then some (decValue d) else none
  else none

/-- `str::parse::<u64>`. -/
def parseU64 (s : String) : Option Nat := parseUIntC (2 ^ 64) s.data

/-- `str::parse::<u32>`. -/
def parseU32 (s : String) : Option Nat := parseUIntC (2 ^ 32) s.data

/-- `str::split_once(sep)`: the pieces before and after the first separator. -/
def splitOnceC (sep : Char) : List Char → Option (List Char × List Char)
  | [] => none
  | c :: r =>
    if c = sep then some ([], r)
    else
      match splitOnceC sep r with
      | some (a, b) => some (c :: a, b)
      | none => none

/-- `str::strip_prefix` on character lists. -/
def dropPre : List Char → List Char → Option (List Char)
  | [], l => some l
  | _ :: _, [] => none
  | a :: p, b :: l => if a = b then dropPre p l else none

/-! ## The rqbit backend stream handler (`torrent.rs`, `handle_stream_request`) -/

/-- The `Range` parsing chain from `handle_stream_request`:
`strip_prefix("bytes=")`, `split_once('-')`, parse the start as `u64`, parse
the end as `u64` and add one (an unparsable end behaves like an absent one). -/
def parseRangeValue (v : String) : Option (Nat × Option Nat) :=
  match dropPre "bytes=".data v.data with
  | none => none
  | some rest =>
    match splitOnceC '-' rest with
    | none => none
    | some (s, e) =>
      match parseUIntC (2 ^ 64) s with
      | none => none
      | some start => some (start, (parseUIntC (2 ^ 64) e).map (· + 1))

/-- A streaming response as far as the claims observe it: status, headers in
insertion order, and the bytes the body stream ultimately yields. -/
structure StreamResponse where
  status : Nat
  headers : List (String × String)
  body : List Nat
deriving Repr, DecidableEq

/-- `RqbitTorrentBackend::handle_stream_request` on a file whose bytes are
fully available: `file` is the file content (`stream.len()` is its length),
`rangeHeader` the `Range` value after `to_str().ok()`.  The body is what the
seek-then-take reader yields; the ~64 KiB chunking of `ReaderStream` is not
observable at this granularity. -/
def handle_stream_request (file : List Nat) (rangeHeader : Option String) : StreamResponse :=
  let total_len := file.length
  match rangeHeader.bind (fun v => parseRangeValue v) with
  | some (start, endOpt) =>
    let stop := endOpt.getD total_len
    let len := stop - start
    { status := 206,
      headers := [("accept-ranges", "bytes"),
        ("content-range",
          "bytes " ++ toString start ++ "-" ++ toString (stop - 1) ++ "/" ++
            toString total_len),
        ("content-length", toString len)],
      body := (file.drop start).take len }
  | none =>
    { status := 200,
      headers := [("accept-ranges", "bytes"), ("content-length", toString total_len)],
      body := file }

/-! ### Parsing facts needed for the range claim -/

theorem dropPre_append (p l : List Char) : dropPre p (p ++ l) = some l := by
  induction p with
  | nil => rfl
  | cons a p ih => simpa [dropPre] using ih

theorem splitOnceC_append (l₁ l₂ : List Char) (sep : Char) (h : sep ∉ l₁) :
    splitOnceC sep (l₁ ++ sep :: l₂) = some (l₁, l₂) := by
  induction l₁ with
  | nil => simp [splitOnceC]
  | cons c r ih =>
    have hc : ¬(c = sep) := fun e => h (by rw [e]; exact List.mem_cons_self _ _)
    have ih' := ih (fun hm => h (List.mem_cons_of_mem _ hm))
    simp [splitOnceC, hc, ih']

theorem parseUIntC_digits (l : List Char) (bound : Nat) (hne : l ≠ [])
    (hdig : ∀ c ∈ l, decDigit c = true) (hlt : decValue l < bound) :
    parseUIntC bound l = some (decValue l) := by
  have hplus : stripPlus l = l := by
    cases l with
    | nil => rfl
    | cons c r =>
      have hd := hdig c (List.mem_cons_self _ _)
      have : ¬(c = '+') := by
        intro e
        rw [e] at hd
        exact absurd hd (by decide)
      simp [stripPlus, this]
  have hemp : l.isEmpty = false := by
    cases l with
    | nil => exact absurd rfl hne
    | cons c r => rfl
  simp [parseUIntC, hplus, hemp, List.all_eq_true.mpr hdig, hlt]

theorem digit_ne_dash {l : List Char} (hdig : ∀ c ∈ l, decDigit c = true) :
    ('-' : Char) ∉ l := fun hm => absurd (hdig _ hm) (by decide)

/-- C4: with `Range: bytes=a-b`, `0 ≤ a ≤ b < L`, the handler returns 206,
`Content-Range: bytes a-b/L`, `Content-Length: b-a+1` and exactly `b-a+1` body
bytes; with `Range: bytes=a-` the total length is the exclusive end; with no
`Range` header it returns 200 with `Accept-Ranges: bytes` and
`Content-Length: L`. -/
theorem handle_stream_request_range (file : List Nat) (sa sb : List Char) (a b : Nat)
    (hsa : sa ≠ [] ∧ (∀ c ∈ sa, decDigit c = true) ∧ decValue sa = a)
    (hsb : sb ≠ [] ∧ (∀ c ∈ sb, decDigit c = true) ∧ decValue sb = b)
    (hab : a ≤ b) (hbL : b < file.length) (hL : file.length < 2 ^ 64) :
    handle_stream_request file (some (String.mk ("bytes=".data ++ sa ++ '-' :: sb))) =
      { status := 206,
        headers := [("accept-ranges", "bytes"),
          ("content-range",
            "bytes " ++ toString a ++ "-" ++ toString b ++ "/" ++ toString file.length),
          ("content-length", toString (b - a + 1))],
        body := (file.drop a).take (b - a + 1) } ∧
    ((file.drop a).take (b - a + 1)).length = b - a + 1 ∧
    handle_stream_request file (some (String.mk ("bytes=".data ++ sa ++ ['-']))) =
      { status := 206,
        headers := [("accept-ranges", "bytes"),
          ("content-range",
            "bytes " ++ toString a ++ "-" ++ toString (file.length - 1) ++ "/" ++
              toString file.length),
          ("content-length", toString (file.length - a))],
        body := (file.drop a).take (file.length - a) } ∧
    handle_stream_request file none =
      { status := 200,
        headers := [("accept-ranges", "bytes"), ("content-length", toString file.length)],
        body := file } := by
  obtain ⟨hane, hadig, hava⟩ := hsa
  obtain ⟨hbne, hbdig, hbvb⟩ := hsb
  have hpa : parseUIntC (2 ^ 64) sa = some a := by
    rw [← hava]
    exact parseUIntC_digits sa _ hane hadig (by rw [hava]; omega)
  have hpb : parseUIntC (2 ^ 64) sb = some b := by
    rw [← hbvb]
    exact parseUIntC_digits sb _ hbne hbdig (by rw [hbvb]; omega)
  have hdash : ('-' : Char) ∉ sa := digit_ne_dash hadig
  have hdrop1 : dropPre "bytes=".data
      (String.mk ("bytes=".data ++ sa ++ '-' :: sb)).data = some (sa ++ '-' :: sb) := by
    show dropPre "bytes=".data (("bytes=".data ++ sa) ++ '-' :: sb) = some (sa ++ '-' :: sb)
    rw [List.append_assoc]
    exact dropPre_append _ _
  have hdrop2 : dropPre "bytes=".data
      (String.mk ("bytes=".data ++ sa ++ ['-'])).data = some (sa ++ ['-']) := by
    show dropPre "bytes=".data (("bytes=".data ++ sa) ++ ['-']) = some (sa ++ ['-'])
    rw [List.append_assoc]
    exact dropPre_append _ _
  have hparse1 : parseRangeValue (String.mk ("bytes=".data ++ sa ++ '-' :: sb)) =
      some (a, some (b + 1)) := by
    simp only [parseRangeValue, hdrop1, splitOnceC_append sa sb '-' hdash, hpa, hpb]
    rfl
  have hparse2 : parseRangeValue (String.mk ("bytes=".data ++ sa ++ ['-'])) =
      some (a, none) := by
    simp only [parseRangeValue, hdrop2, splitOnceC_append sa [] '-' hdash, hpa]
    rfl
  have harith : b + 1 - a = b - a + 1 := by omega
  have key : ∀ (v : String) (res : Nat × Option Nat), parseRangeValue v = some res →
      handle_stream_request file (some v) =
        { status := 206,
          headers := [("accept-ranges", "bytes"),
            ("content-range",
              "bytes " ++ toString res.1 ++ "-" ++
                toString (res.2.getD file.length - 1) ++ "/" ++ toString file.length),
            ("content-length", toString (res.2.getD file.length - res.1))],
          body := (file.drop res.1).take (res.2.getD file.length - res.1) } := by
    intro v res hv
    simp only [handle_stream_request, Option.bind, hv]
  refine ⟨?_, ?_, ?_, rfl⟩
  · rw [key _ _ hparse1]
    simp [harith]
  · simp only [List.length_take, List.length_drop]
    omega
  · rw [key _ _ hparse2]
    simp

/-- C4 witness: `bytes=2-5` on a ten-byte file. -/
theorem handle_stream_request_range_witness :
    handle_stream_request [10, 11, 12, 13, 14, 15, 16, 17, 18, 19]
        (some (String.mk ("bytes=".data ++ ['2'] ++ '-' :: ['5']))) =
      { status := 206,
        headers := [("accept-ranges", "bytes"),
          ("content-range", "bytes " ++ toString 2 ++ "-" ++ toString 5 ++ "/" ++ toString 10),
          ("content-length", toString (5 - 2 + 1))],
        body := [12, 13, 14, 15] } ∧
    handle_stream_request [10, 11, 12, 13, 14, 15, 16, 17, 18, 19] none =
      { status := 200,
        headers := [("accept-ranges", "bytes"), ("content-length", toString 10)],
        body := [10, 11, 12, 13, 14, 15, 16, 17, 18, 19] } :=
  ⟨(handle_stream_request_range [10, 11, 12, 13, 14, 15, 16, 17, 18, 19] ['2'] ['5'] 2 5
      ⟨by decide, by decide, by decide⟩ ⟨by decide, by decide, by decide⟩
      (by decide) (by decide) (by decide)).1,
   (handle_stream_request_range [10, 11, 12, 13, 14, 15, 16, 17, 18, 19] ['2'] ['5'] 2 5
      ⟨by decide, by decide, by decide⟩ ⟨by decide, by decide, by decide⟩
      (by decide) (by decide) (by decide)).2.2.2⟩

/-! ## Alternative title generation (`crates/libnero/src/file_resolver.rs`) -/

/-- `anitomy::OwnedElementObject`, reduced to the fields the resolver reads. -/
structure OwnedElementObject where
  title : Option String
  year : Option String
  season : Option String
  episode : Option String
  kind : Option String
deriving Repr, DecidableEq

/-- `generate_alternative_titles` from `file_resolver.rs`: the title itself,
then — when the season string parses as a `u32` — `"{title} {season}"`,
`"{title} {season}{postfix} Season"` and `"{title} Season {season}"`, where
the ordinal suffix is `st`/`nd`/`rd` for 1/2/3 and `th` otherwise. -/
def generate_alternative_titles (obj : OwnedElementObject) : List String :=
  match obj.title with
  | none => []
  | some title =>
    title ::
      (match obj.season with
       | some season_str =>
         match parseU32 season_str with
         | some season =>
           let ordSuffix :=
             if season = 1 then "st"
             else if season = 2 then "nd"
             else if season = 3 then "rd"
             else "th"
           [title ++ " " ++ toString season,
            title ++ " " ++ toString season ++ ordSuffix ++ " Season",
            title ++ " Season " ++ toString season]
         | none => []
       | none => [])

/-- C5 (amended): with a present title and a numeric season `n ≥ 1` the
candidates are, in order, `T`, `T n`, `T n{ordinal} Season`, `T Season n`;
with an absent or non-numeric season the sole candidate is `T`. -/
theorem generate_alternative_titles_spec (obj : OwnedElementObject) (t : String)
    (ht : obj.title = some t) :
    (∀ s n, obj.season = some s → parseU32 s = some n → 1 ≤ n →
      generate_alternative_titles obj =
        [t, t ++ " " ++ toString n,
         t ++ " " ++ toString n ++
           (if n = 1 then "st" else if n = 2 then "nd" else if n = 3 then "rd" else "th") ++
           " Season",
         t ++ " Season " ++ toString n]) ∧
    (obj.season = none → generate_alternative_titles obj = [t]) ∧
    (∀ s, obj.season = some s → parseU32 s = none →
      generate_alternative_titles obj = [t]) := by
  refine ⟨?_, ?_, ?_⟩
  · intro s n hs hn h1
    simp [generate_alternative_titles, ht, hs, hn]
  · intro hs
    simp [generate_alternative_titles, ht, hs]
  · intro s hs hn
    simp [generate_alternative_titles, ht, hs, hn]

/-- C5 witness: season `2` yields `A`, `A 2`, `A 2nd Season`, `A Season 2`. -/
theorem generate_alternative_titles_spec_witness :
    generate_alternative_titles ⟨some "A", none, some "2", none, none⟩ =
      ["A", "A 2", "A 2nd Season", "A Season 2"] :=
  (generate_alternative_titles_spec ⟨some "A", none, some "2", none, none⟩ "A" rfl).1
    "2" 2 rfl (by rfl) (by decide)

/-- C5 counterexample: for title `T`, season `1` the code emits
`T 1st Season` as the third candidate, not the `T 1st` the claim states, so
the claimed candidate list is wrong. -/
theorem generate_alternative_titles_counterexample :
    generate_alternative_titles ⟨some "T", none, some "1", none, none⟩ =
      ["T", "T 1", "T 1st Season", "T Season 1"] ∧
    generate_alternative_titles ⟨some "T", none, some "1", none, none⟩ ≠
      ["T", "T 1", "T 1st", "T Season 1"] := by
  constructor
  · rfl
  · decide

end Libnero
